import Mathlib

/- Verification of the JQL query serializer, paginated search loop and JSON
field lookup of the jimberlage-jira-client library. Each definition is a
shallow embedding of the corresponding Rust item (src/jql.rs, src/lib.rs,
src/util.rs); definitions whose names end in _ref render the specification
text instead, for refinement theorems. -/

namespace JiraClient

/- The constructor JQLValue.String below shadows the String type inside its
namespace, so the development refers to strings through this abbreviation. -/
abbrev Str := String

/- ## Escaper: src/jql.rs, escape_text_field -/

/- The reserved characters matched by the second arm of the match in
escape_text_field (src/jql.rs lines 26-27). -/
def reservedChars : List Char :=
  ['+', '-', '&', '|', '!', '(', ')', '\x7b', '\x7d', '[', ']', '^', '~',
   '*', '?', '\\', ':']

/- The characters pushed onto the buffer by the match in escape_text_field
before the character itself is pushed: one backslash for a double quote,
two backslashes for a reserved character, nothing otherwise
(src/jql.rs lines 22-32). -/
def escapeLead (c : Char) : List Char :=
  if c = '"' then ['\\']
  else if c ∈ reservedChars then ['\\', '\\']
  else []

/- Embedding of escape_text_field (src/jql.rs lines 18-38): fold over the
characters of s pushing escapeLead c and then c onto the buffer, and wrap
the buffer in a pair of double quotes. -/
def escape_text_field (s : Str) : Str :=
  "\"" ++ String.mk (s.data.foldl (fun escaped_chars c => escaped_chars ++ escapeLead c ++ [c]) []) ++ "\""

/- Reference definition written from the specification text for the escaper:
per input character, emit one backslash then the character for a double
quote, two backslashes then the character for a reserved character, and the
character alone otherwise; concatenate the per-character blocks in input
order and wrap them in one leading and one trailing double quote. -/
def escapeBlock_ref (c : Char) : List Char :=
  if c = '"' then ['\\', c]
  else if c ∈ reservedChars then ['\\', '\\', c]
  else [c]

def escapeTextLiteral_ref (s : Str) : Str :=
  "\"" ++ String.mk (s.data.map escapeBlock_ref).flatten ++ "\""

/- ## Dates: the chrono NaiveDate payload of JQLValue (src/jql.rs line 54) -/

/- Modelled from the chrono dependency: the proleptic Gregorian leap-year rule
used by chrono NaiveDate. -/
def isLeapYear (y : Int) : Bool :=
  y % 4 == 0 && (y % 100 != 0 || y % 400 == 0)

def daysInMonth (y : Int) (m : Nat) : Nat :=
  if m = 2 then (if isLeapYear y then 29 else 28)
  else if m = 4 ∨ m = 6 ∨ m = 9 ∨ m = 11 then 30
  else 31

/- Modelled from the chrono dependency: the calendar validity and year range
(-262144 to 262143) enforced by chrono NaiveDate construction. -/
def isValidYmd (y : Int) (m d : Nat) : Bool :=
  decide (-262144 ≤ y) && decide (y ≤ 262143) && decide (1 ≤ m) && decide (m ≤ 12) &&
    decide (1 ≤ d) && decide (d ≤ daysInMonth y m)

/- A chrono NaiveDate: a calendar date that can only exist when valid, because
every chrono constructor validates its arguments. -/
structure NaiveDate where
  year : Int
  month : Nat
  day : Nat
  valid : isValidYmd year month day = true

/- Modelled from the spec: the Date literal constructor is missing from this
repository (it lives in the chrono dependency, as NaiveDate from_ymd_opt);
per the specification, constructing from an invalid calendar date fails at
construction time with a validation error, rendered here as None. -/
def NaiveDate.from_ymd_opt (y : Int) (m d : Nat) : Option NaiveDate :=
  if h : isValidYmd y m d = true then some ⟨y, m, d, h⟩ else none

def zeroPad (width : Nat) (s : Str) : Str :=
  if s.length < width then String.mk (List.replicate (width - s.length) '0') ++ s else s

/- Modelled from the chrono dependency, formatting specifier %Y (chrono
format/formatting.rs, Numeric Year with Pad Zero): a year inside 0..10000
prints as four zero-padded digits; any other year prints with an explicit
sign as per ISO 8601, zero-padded so that sign plus digits fill at least
five columns. -/
def formatYear (y : Int) : Str :=
  if 0 ≤ y ∧ y < 10000 then zeroPad 4 (toString y.toNat)
  else if 0 ≤ y then "+" ++ zeroPad 4 (toString y.toNat)
  else "-" ++ zeroPad 4 (toString (-y).toNat)

/- Modelled from the chrono dependency: date.format with specifier %Y-%m-%d,
as called by JQLValue serialize_to_jql (src/jql.rs line 74). -/
def NaiveDate.formatYmd (dt : NaiveDate) : Str :=
  formatYear dt.year ++ "-" ++ zeroPad 2 (toString dt.month) ++ "-" ++ zeroPad 2 (toString dt.day)

/- ## JQLValue (src/jql.rs lines 51-77) -/

inductive JQLValue where
  | String : Str → JQLValue
  | NaiveDate : NaiveDate → JQLValue

/- Embedding of the SerializableToJQL impl for JQLValue
(src/jql.rs lines 71-76). -/
def JQLValue.serialize_to_jql : JQLValue → Str
  | .String contents => escape_text_field contents
  | .NaiveDate date => "\"" ++ date.formatYmd ++ "\""

/- Embedding of the derived Clone impl for JQLValue. -/
def JQLValue.clone : JQLValue → JQLValue
  | .String s => .String s
  | .NaiveDate d => .NaiveDate d

/- The date rendering asserted by the specification: a four-digit zero-padded
year, two-digit zero-padded month and day, wrapped in double quotes with no
internal escaping. -/
def date_render_claim (dt : NaiveDate) : Str :=
  "\"" ++ zeroPad 4 (toString dt.year.toNat) ++ "-" ++ zeroPad 2 (toString dt.month) ++ "-"
    ++ zeroPad 2 (toString dt.day) ++ "\""

def naiveDate_10000_01_01 : NaiveDate := ⟨10000, 1, 1, by decide⟩

def naiveDate_2022_05_10 : NaiveDate := ⟨2022, 5, 10, by decide⟩

/- ## JQLClause (src/jql.rs lines 86-161) -/

inductive JQLClause where
  | And : List JQLClause → JQLClause
  | Equals : Str → JQLValue → JQLClause
  | GreaterThanEquals : Str → JQLValue → JQLClause
  | In : Str → List JQLValue → JQLClause
  | LessThanEquals : Str → JQLValue → JQLClause

/- Embedding of Rust Vec join as used on the collected sub-strings: the
elements concatenated with the separator between consecutive elements. -/
def joinStrings (sep : Str) : List Str → Str
  | [] => ""
  | [s] => s
  | s :: rest => s ++ sep ++ joinStrings sep rest

mutual

/- Embedding of the SerializableToJQL impl for JQLClause (src/jql.rs lines
132-160); serializeClauses is the iterator map over the sub-clause vector. -/
def JQLClause.serialize_to_jql : JQLClause → Str
  | .And clauses => "(" ++ joinStrings " AND " (serializeClauses clauses) ++ ")"
  | .Equals field value => field ++ " = " ++ value.serialize_to_jql
  | .GreaterThanEquals field value => field ++ " >= " ++ value.serialize_to_jql
  | .In field values =>
    field ++ " IN (" ++ joinStrings ", " (values.map JQLValue.serialize_to_jql) ++ ")"
  | .LessThanEquals field value => field ++ " <= " ++ value.serialize_to_jql

def serializeClauses : List JQLClause → List Str
  | [] => []
  | c :: cs => c.serialize_to_jql :: serializeClauses cs

end

mutual

/- Reference clause grammar written from the specification text, with its
explicit empty-conjunction and empty-membership renderings. -/
def clause_ref : JQLClause → Str
  | .And [] => "()"
  | .And cs => "(" ++ joinStrings " AND " (clause_ref_list cs) ++ ")"
  | .Equals field value => field ++ " = " ++ value.serialize_to_jql
  | .GreaterThanEquals field value => field ++ " >= " ++ value.serialize_to_jql
  | .In field [] => field ++ " IN ()"
  | .In field vs => field ++ " IN (" ++ joinStrings ", " (vs.map JQLValue.serialize_to_jql) ++ ")"
  | .LessThanEquals field value => field ++ " <= " ++ value.serialize_to_jql

def clause_ref_list : List JQLClause → List Str
  | [] => []
  | c :: cs => clause_ref c :: clause_ref_list cs

end

mutual

/- Nesting depth of a clause tree: every node is depth at least one, a
conjunction is one more than its deepest sub-clause. -/
def clauseDepth : JQLClause → Nat
  | .And cs => 1 + clauseListDepth cs
  | .Equals _ _ => 1
  | .GreaterThanEquals _ _ => 1
  | .In _ _ => 1
  | .LessThanEquals _ _ => 1

def clauseListDepth : List JQLClause → Nat
  | [] => 0
  | c :: cs => Nat.max (clauseDepth c) (clauseListDepth cs)

end

mutual

/- Fuel-indexed clause serializer: identical to serialize_to_jql except that
each recursion step consumes one unit of fuel, and exhausted fuel is the only
way to return none. It witnesses that the recursion of the source terminates
within the depth of the tree and has no error branch. -/
def serializeFuel : Nat → JQLClause → Option Str
  | 0, _ => none
  | f + 1, JQLClause.And clauses =>
    match serializeFuelList f clauses with
    | some ss => some ("(" ++ joinStrings " AND " ss ++ ")")
    | none => none
  | _ + 1, JQLClause.Equals field value => some (field ++ " = " ++ value.serialize_to_jql)
  | _ + 1, JQLClause.GreaterThanEquals field value =>
    some (field ++ " >= " ++ value.serialize_to_jql)
  | _ + 1, JQLClause.In field values =>
    some (field ++ " IN (" ++ joinStrings ", " (values.map JQLValue.serialize_to_jql) ++ ")")
  | _ + 1, JQLClause.LessThanEquals field value =>
    some (field ++ " <= " ++ value.serialize_to_jql)

def serializeFuelList : Nat → List JQLClause → Option (List Str)
  | _, [] => some []
  | f, c :: cs =>
    match serializeFuel f c, serializeFuelList f cs with
    | some s, some ss => some (s :: ss)
    | _, _ => none

end

mutual

/- Embedding of the derived Clone impl for JQLClause: a structural copy. -/
def JQLClause.clone : JQLClause → JQLClause
  | .And cs => .And (cloneClauses cs)
  | .Equals field value => .Equals field value.clone
  | .GreaterThanEquals field value => .GreaterThanEquals field value.clone
  | .In field values => .In field (values.map JQLValue.clone)
  | .LessThanEquals field value => .LessThanEquals field value.clone

def cloneClauses : List JQLClause → List JQLClause
  | [] => []
  | c :: cs => c.clone :: cloneClauses cs

end

/- ## Ordering and statement (src/jql.rs lines 163-237) -/

inductive JQLOrdering where
  | Asc
  | Desc

def JQLOrdering.serialize_to_jql : JQLOrdering → Str
  | .Asc => "ASC"
  | .Desc => "DESC"

def JQLOrdering.clone : JQLOrdering → JQLOrdering
  | .Asc => .Asc
  | .Desc => .Desc

structure JQLOrderByPart where
  field : Str
  ordering : Option JQLOrdering

/- Embedding of the SerializableToJQL impl for JQLOrderByPart (src/jql.rs
lines 184-191). -/
def JQLOrderByPart.serialize_to_jql (p : JQLOrderByPart) : Str :=
  match p.ordering with
  | some ordering => p.field ++ " " ++ ordering.serialize_to_jql
  | none => p.field

def JQLOrderByPart.clone (p : JQLOrderByPart) : JQLOrderByPart :=
  ⟨p.field, p.ordering.map JQLOrdering.clone⟩

/- Embedding of the tuple struct JQLOrderBy(Vec<JQLOrderByPart>); parts is
its single positional field. -/
structure JQLOrderBy where
  parts : List JQLOrderByPart

/- Embedding of the SerializableToJQL impl for JQLOrderBy (src/jql.rs lines
196-207). -/
def JQLOrderBy.serialize_to_jql (ob : JQLOrderBy) : Str :=
  "ORDER BY " ++ joinStrings ", " (ob.parts.map JQLOrderByPart.serialize_to_jql)

def JQLOrderBy.clone (ob : JQLOrderBy) : JQLOrderBy :=
  ⟨ob.parts.map JQLOrderByPart.clone⟩

structure JQLStatement where
  clause : JQLClause
  order_by : Option JQLOrderBy

/- Embedding of the SerializableToJQL impl for JQLStatement (src/jql.rs lines
226-236): the guarded match on order_by. -/
def JQLStatement.serialize_to_jql (st : JQLStatement) : Str :=
  match st.order_by with
  | some order_by =>
    if order_by.parts.isEmpty then st.clause.serialize_to_jql
    else st.clause.serialize_to_jql ++ " " ++ order_by.serialize_to_jql
  | none => st.clause.serialize_to_jql

def JQLStatement.clone (st : JQLStatement) : JQLStatement :=
  ⟨st.clause.clone, st.order_by.map JQLOrderBy.clone⟩

/- Reference order-term and statement serialization written from the
specification text: a term is its field alone or field, one space and the
direction token; a statement is the clause alone when the ordering is absent
or empty, else the clause, one space, the text ORDER BY and the comma-joined
terms in input order. -/
def order_term_ref (t : JQLOrderByPart) : Str :=
  match t.ordering with
  | none => t.field
  | some JQLOrdering.Asc => t.field ++ " " ++ "ASC"
  | some JQLOrdering.Desc => t.field ++ " " ++ "DESC"

def statement_ref (st : JQLStatement) : Str :=
  match st.order_by with
  | none => st.clause.serialize_to_jql
  | some ob =>
    match ob.parts with
    | [] => st.clause.serialize_to_jql
    | _ :: _ =>
      st.clause.serialize_to_jql ++ " "
        ++ ("ORDER BY " ++ joinStrings ", " (ob.parts.map order_term_ref))

/- ## Paginated search (src/lib.rs lines 242-264) -/

/- Embedding of the loop in RestClient search_all: the HTTP search call is
abstracted as a total function server from the requested start_at and
max_results to the page of issues the endpoint returns (the claim quantifies
over the pages the endpoint returns, so transport errors are out of scope);
fuel bounds the number of iterations, and none is returned only when fuel
runs out before the loop exits. The page is fetched, appended to the result,
the loop exits when the page is shorter than max_results, and otherwise
start_at advances by the number of records returned. -/
def search_all_loop {α : Type} (server : Nat → Nat → List α) :
    Nat → Nat → Nat → List α → Option (List α)
  | 0, _, _, _ => none
  | fuel + 1, start_at, max_results, result =>
    if (server start_at max_results).length < max_results then
      some (result ++ server start_at max_results)
    else
      search_all_loop server fuel (start_at + (server start_at max_results).length)
        max_results (result ++ server start_at max_results)

/- Embedding of RestClient search_all (src/lib.rs lines 242-264): the loop
started at offset 0 with requested page size 100 and an empty result. -/
def search_all {α : Type} (server : Nat → Nat → List α) (fuel : Nat) : Option (List α) :=
  search_all_loop server fuel 0 100 []

/- The offset the loop passes to its i-th search call: 0 first, then
advancing by the number of records the previous page returned. -/
def search_offset {α : Type} (server : Nat → Nat → List α) : Nat → Nat
  | 0 => 0
  | i + 1 => search_offset server i + (server (search_offset server i) 100).length

/- The page the endpoint returns to the i-th search call. -/
def search_page {α : Type} (server : Nat → Nat → List α) (i : Nat) : List α :=
  server (search_offset server i) 100

/- A concrete endpoint for the witness: a full first page at offset 0, then a
single-record page. -/
def demoServer : Nat → Nat → List Nat :=
  fun start_at max_results => if start_at = 0 then List.range max_results else [start_at]

/- ## JSON field lookup (src/util.rs lines 24-48) -/

/- Model of a serde_json Value; the number payload is opaque to the code
under study, so it is represented by its decimal text. -/
inductive JSONValue where
  | Null
  | Bool : Bool → JSONValue
  | Number : Str → JSONValue
  | String : Str → JSONValue
  | Array : List JSONValue → JSONValue
  | Object : List (Str × JSONValue) → JSONValue

/- Model of serde_json Map get: lookup of a key among the object entries (a
serde_json map holds at most one entry per key; here the first match). -/
def getKey : List (Str × JSONValue) → Str → Option JSONValue
  | [], _ => none
  | (k, v) :: rest, key => if k = key then some v else getKey rest key

/- The loop of get_string_in_json over all keys but the last (src/util.rs
lines 31-37): descend into an object member when present, otherwise keep the
current value and move on to the next key. -/
def walkPath : JSONValue → List Str → JSONValue
  | v, [] => v
  | v, k :: ks =>
    match v with
    | JSONValue.Object m =>
      match getKey m k with
      | some inner => walkPath inner ks
      | none => walkPath v ks
    | _ => walkPath v ks

/- Embedding of get_string_in_json (src/util.rs lines 24-48). The last key is
read with a default that is unreachable because the empty path already
returned none. -/
def get_string_in_json (value : JSONValue) (path : List Str) : Option Str :=
  if path.isEmpty then none
  else
    match walkPath value path.dropLast with
    | JSONValue.Object m =>
      match getKey m (path.getLastD "") with
      | some (JSONValue.String s) => some s
      | _ => none
    | _ => none

/- The documentation example of get_string_in_json (src/util.rs lines 14-22). -/
def demoJson : JSONValue :=
  JSONValue.Object [("statusCategory", JSONValue.Object [("name", JSONValue.String "Done")])]

end JiraClient

namespace JiraClient

theorem escapeLead_append (c : Char) : escapeLead c ++ [c] = escapeBlock_ref c := by
  by_cases h1 : c = '"' <;> by_cases h2 : c ∈ reservedChars <;>
    simp [escapeLead, escapeBlock_ref, h1, h2]

theorem foldl_escape (l : List Char) (acc : List Char) :
    l.foldl (fun escaped_chars c => escaped_chars ++ escapeLead c ++ [c]) acc
      = acc ++ (l.map escapeBlock_ref).flatten := by
  induction l generalizing acc with
  | nil => simp
  | cons c cs ih =>
    rw [List.foldl_cons, ih]
    simp [List.append_assoc, escapeLead_append]

/-- C1: escape_text_field agrees with the reference escaper built from the
specification text on every input string, and escapes the empty string to
exactly two double-quote characters. -/
theorem escape_text_field_matches_ref :
    (∀ s : Str, escape_text_field s = escapeTextLiteral_ref s) ∧
      escape_text_field "" = "\"\"" := by
  constructor
  · intro s
    unfold escape_text_field escapeTextLiteral_ref
    rw [foldl_escape]
    simp
  · rfl

/-- C2: the output of escape_text_field is one leading double quote, then the
concatenation, in input order, of the per-character blocks escape-lead-then-
character, then one trailing double quote; the escape lead is one backslash
for a double quote and two backslashes for every reserved character. -/
theorem escape_wrapped_and_prefixed (s : Str) (c : Char) (hc : c ∈ reservedChars) :
    ∃ mid : List Char,
      (escape_text_field s).data = '"' :: (mid ++ ['"']) ∧
      mid = (s.data.map (fun x => escapeLead x ++ [x])).flatten ∧
      escapeLead '"' = ['\\'] ∧ escapeLead c = ['\\', '\\'] := by
  have hne : c ≠ '"' := by
    rintro rfl
    revert hc
    decide
  refine ⟨(s.data.map escapeBlock_ref).flatten, ?_, ?_, rfl, ?_⟩
  · unfold escape_text_field
    rw [foldl_escape]
    simp
  · have : ∀ x ∈ s.data, escapeLead x ++ [x] = escapeBlock_ref x :=
      fun x _ => escapeLead_append x
    rw [List.map_congr_left this]
  · simp [escapeLead, hne, hc]

theorem escape_wrapped_and_prefixed_witness :
    ∃ mid : List Char,
      (escape_text_field "a:").data = '"' :: (mid ++ ['"']) ∧
      mid = (("a:" : Str).data.map (fun x => escapeLead x ++ [x])).flatten ∧
      escapeLead '"' = ['\\'] ∧ escapeLead ':' = ['\\', '\\'] :=
  escape_wrapped_and_prefixed "a:" ':' (by decide)

/-- C3 counterexample: the year 10000 is a valid chrono date, yet the code
renders it "+10000-01-01" (chrono prints an explicit sign for years outside
0..=9999), not the four-digit zero-padded "10000-01-01" form the claim
requires for every NaiveDate. -/
theorem serialize_date_sign_counterexample :
    (JQLValue.NaiveDate naiveDate_10000_01_01).serialize_to_jql = "\"+10000-01-01\"" ∧
    date_render_claim naiveDate_10000_01_01 = "\"10000-01-01\"" ∧
    ("\"+10000-01-01\"" : Str) ≠ "\"10000-01-01\"" := by
  refine ⟨?_, ?_, ?_⟩ <;> decide

/-- C3 amended: String payloads route exactly through escape_text_field; a
NaiveDate payload renders as the %Y-%m-%d form wrapped in one quote pair with
no internal escaping, and for years 0..=9999 that form is exactly the
four-digit zero-padded YYYY-MM-DD the claim states. -/
theorem serialize_value_amended (v : JQLValue) :
    (∀ s, v = JQLValue.String s → v.serialize_to_jql = escape_text_field s) ∧
    (∀ dt, v = JQLValue.NaiveDate dt → v.serialize_to_jql = "\"" ++ dt.formatYmd ++ "\"") ∧
    (∀ dt, v = JQLValue.NaiveDate dt → 0 ≤ dt.year → dt.year < 10000 →
      v.serialize_to_jql = date_render_claim dt) := by
  refine ⟨?_, ?_, ?_⟩
  · rintro s rfl
    rfl
  · rintro dt rfl
    rfl
  · rintro dt rfl h0 h1
    simp [JQLValue.serialize_to_jql, NaiveDate.formatYmd, date_render_claim, formatYear,
      h0, h1, String.append_assoc]

theorem serialize_value_amended_witness :
    (JQLValue.NaiveDate naiveDate_2022_05_10).serialize_to_jql
      = date_render_claim naiveDate_2022_05_10 :=
  (serialize_value_amended (JQLValue.NaiveDate naiveDate_2022_05_10)).2.2
    naiveDate_2022_05_10 rfl (by decide) (by decide)

/-- C8: date construction validates the calendar date, failing (None) exactly
on invalid input, month 13 in particular; consequently every NaiveDate that
exists carries a valid payload, so serializing it cannot fail. -/
theorem date_validation_at_construction :
    (∀ (y : Int) (m d : Nat), (NaiveDate.from_ymd_opt y m d).isSome = isValidYmd y m d) ∧
    (∀ (y : Int) (d : Nat), NaiveDate.from_ymd_opt y 13 d = none) ∧
    (∀ dt : NaiveDate, isValidYmd dt.year dt.month dt.day = true) := by
  refine ⟨?_, ?_, ?_⟩
  · intro y m d
    unfold NaiveDate.from_ymd_opt
    split <;> simp_all
  · intro y d
    have h13 : isValidYmd y 13 d = false := by
      simp [isValidYmd]
    unfold NaiveDate.from_ymd_opt
    simp [h13]
  · intro dt
    exact dt.valid

/- Induction over the clause tree with the inductive hypothesis available for
every member of a conjunction, built on the generated recursor. -/
theorem clause_rec_on {M : JQLClause → Prop}
    (h1 : ∀ cs, (∀ c ∈ cs, M c) → M (JQLClause.And cs))
    (h2 : ∀ f v, M (JQLClause.Equals f v))
    (h3 : ∀ f v, M (JQLClause.GreaterThanEquals f v))
    (h4 : ∀ f vs, M (JQLClause.In f vs))
    (h5 : ∀ f v, M (JQLClause.LessThanEquals f v)) :
    ∀ c, M c := by
  intro c
  refine @JQLClause.rec M (fun cs => ∀ x ∈ cs, M x) h1 h2 h3 h4 h5 ?_ ?_ c
  · intro x hx
    cases hx
  · intro head tail hh ht x hx
    cases hx with
    | head => exact hh
    | tail _ h => exact ht x h

theorem serializeClauses_eq_map (cs : List JQLClause) :
    serializeClauses cs = cs.map JQLClause.serialize_to_jql := by
  induction cs with
  | nil => simp [serializeClauses]
  | cons c rest ih => simp [serializeClauses, ih]

theorem clause_ref_list_eq_map (cs : List JQLClause) :
    clause_ref_list cs = cs.map clause_ref := by
  induction cs with
  | nil => simp [clause_ref_list]
  | cons c rest ih => simp [clause_ref_list, ih]

/-- C4: the clause serializer realizes exactly the reference grammar of the
specification: parenthesized " AND "-joined conjunctions with the empty
conjunction rendering as a bare pair of parentheses, the comparison forms
with their operator tokens, ", "-joined membership lists with the empty list
rendering as empty parentheses, and field names emitted verbatim. -/
theorem clause_serialization_grammar : ∀ c : JQLClause, c.serialize_to_jql = clause_ref c := by
  refine clause_rec_on ?_ ?_ ?_ ?_ ?_
  · intro cs ih
    cases cs with
    | nil =>
      simp only [JQLClause.serialize_to_jql, clause_ref, serializeClauses, joinStrings]
      rfl
    | cons c rest =>
      simp only [JQLClause.serialize_to_jql, clause_ref, serializeClauses_eq_map,
        clause_ref_list_eq_map]
      rw [List.map_congr_left ih]
  · intro f v
    simp [JQLClause.serialize_to_jql, clause_ref]
  · intro f v
    simp [JQLClause.serialize_to_jql, clause_ref]
  · intro f vs
    cases vs with
    | nil =>
      simp only [JQLClause.serialize_to_jql, clause_ref, List.map_nil, joinStrings]
      rw [String.append_empty, String.append_assoc]
      exact congrArg (fun t => f ++ t) (by decide)
    | cons v rest =>
      simp [JQLClause.serialize_to_jql, clause_ref]
  · intro f v
    simp [JQLClause.serialize_to_jql, clause_ref]

theorem clauseDepth_pos (c : JQLClause) : 1 ≤ clauseDepth c := by
  cases c <;> simp [clauseDepth]

theorem clauseDepth_le_listDepth (cs : List JQLClause) (c : JQLClause) (h : c ∈ cs) :
    clauseDepth c ≤ clauseListDepth cs := by
  induction cs with
  | nil => cases h
  | cons d ds ih =>
    cases h with
    | head =>
      simp only [clauseListDepth]
      exact Nat.le_max_left _ _
    | tail _ h =>
      simp only [clauseListDepth]
      exact Nat.le_trans (ih h) (Nat.le_max_right _ _)

theorem serializeFuelList_spec (f : Nat)
    (H : ∀ c, clauseDepth c ≤ f → serializeFuel f c = some c.serialize_to_jql) :
    ∀ cs, (∀ c ∈ cs, clauseDepth c ≤ f) →
      serializeFuelList f cs = some (serializeClauses cs) := by
  intro cs
  induction cs with
  | nil =>
    intro _
    simp [serializeFuelList, serializeClauses]
  | cons c rest ih =>
    intro h
    have hc := H c (h c (by simp))
    have hr := ih (fun x hx => h x (by simp [hx]))
    simp [serializeFuelList, serializeClauses, hc, hr]

/-- C6: clause serialization is total and terminates within the depth of the
tree: with any fuel at least the clause depth, the fuel-indexed serializer
never runs out and returns exactly the serialization, on every clause. -/
theorem serialization_total_with_fuel (c : JQLClause) (fuel : Nat)
    (h : clauseDepth c ≤ fuel) : serializeFuel fuel c = some c.serialize_to_jql := by
  induction fuel generalizing c with
  | zero =>
    have := clauseDepth_pos c
    omega
  | succ f ih =>
    cases c with
    | And cs =>
      have hcs : ∀ x ∈ cs, clauseDepth x ≤ f := by
        intro x hx
        have h1 : clauseDepth x ≤ clauseListDepth cs := clauseDepth_le_listDepth cs x hx
        have h2 : clauseDepth (JQLClause.And cs) = 1 + clauseListDepth cs := by
          simp [clauseDepth]
        omega
      have hlist := serializeFuelList_spec f ih cs hcs
      simp [serializeFuel, JQLClause.serialize_to_jql, hlist]
    | Equals fld v => simp [serializeFuel, JQLClause.serialize_to_jql]
    | GreaterThanEquals fld v => simp [serializeFuel, JQLClause.serialize_to_jql]
    | In fld vs => simp [serializeFuel, JQLClause.serialize_to_jql]
    | LessThanEquals fld v => simp [serializeFuel, JQLClause.serialize_to_jql]

theorem serialization_total_with_fuel_witness :
    serializeFuel 2 (JQLClause.And [JQLClause.Equals "project" (JQLValue.String "SRE")])
      = some ((JQLClause.And [JQLClause.Equals "project" (JQLValue.String "SRE")]).serialize_to_jql) :=
  serialization_total_with_fuel _ 2 (by simp [clauseDepth, clauseListDepth])

theorem order_term_eq_ref (p : JQLOrderByPart) : p.serialize_to_jql = order_term_ref p := by
  rcases p with ⟨f, o⟩
  cases o with
  | none => rfl
  | some o => cases o <;> rfl

/-- C5: a statement serializes to exactly the serialization of its clause when
order_by is None or Some of an empty term list, and otherwise to the clause,
one space, the text ORDER BY and the comma-joined terms in input order, each
term rendering as its field alone or as field, space and ASC or DESC. -/
theorem statement_serialization (st : JQLStatement) :
    st.serialize_to_jql = statement_ref st := by
  rcases st with ⟨c, ob⟩
  cases ob with
  | none => rfl
  | some ob =>
    rcases ob with ⟨parts⟩
    cases parts with
    | nil => rfl
    | cons p ps =>
      simp only [JQLStatement.serialize_to_jql, statement_ref, JQLOrderBy.serialize_to_jql,
        List.isEmpty_cons, Bool.false_eq_true, if_false]
      rw [List.map_congr_left (fun x _ => order_term_eq_ref x)]

theorem value_clone_id (v : JQLValue) : v.clone = v := by
  cases v <;> rfl

theorem cloneClauses_eq_map (cs : List JQLClause) :
    cloneClauses cs = cs.map JQLClause.clone := by
  induction cs with
  | nil => simp [cloneClauses]
  | cons c rest ih => simp [cloneClauses, ih]

theorem clause_clone_id : ∀ c : JQLClause, c.clone = c := by
  refine clause_rec_on ?_ ?_ ?_ ?_ ?_
  · intro cs ih
    simp only [JQLClause.clone, cloneClauses_eq_map]
    rw [List.map_congr_left ih]
    simp
  · intro f v
    simp [JQLClause.clone, value_clone_id]
  · intro f v
    simp [JQLClause.clone, value_clone_id]
  · intro f vs
    simp only [JQLClause.clone]
    rw [List.map_congr_left (fun x _ => value_clone_id x)]
    simp
  · intro f v
    simp [JQLClause.clone, value_clone_id]

theorem part_clone_id (p : JQLOrderByPart) : p.clone = p := by
  rcases p with ⟨f, o⟩
  cases o with
  | none => rfl
  | some o => cases o <;> rfl

theorem orderby_clone_id (ob : JQLOrderBy) : ob.clone = ob := by
  rcases ob with ⟨parts⟩
  simp only [JQLOrderBy.clone]
  rw [List.map_congr_left (fun x _ => part_clone_id x)]
  simp

theorem statement_clone_id (st : JQLStatement) : st.clone = st := by
  rcases st with ⟨c, ob⟩
  simp only [JQLStatement.clone, clause_clone_id]
  cases ob with
  | none => rfl
  | some ob => simp [orderby_clone_id]

/-- C7: serialization is deterministic and clone-invariant: serializing the
same statement twice yields identical output, and serializing the clone of a
statement, clause, value or ordering yields output identical to serializing
the original. -/
theorem serialization_deterministic_clone_invariant (st : JQLStatement) :
    st.serialize_to_jql = st.serialize_to_jql ∧
    st.clone.serialize_to_jql = st.serialize_to_jql ∧
    (∀ c : JQLClause, c.clone.serialize_to_jql = c.serialize_to_jql) ∧
    (∀ v : JQLValue, v.clone.serialize_to_jql = v.serialize_to_jql) ∧
    (∀ ob : JQLOrderBy, ob.clone.serialize_to_jql = ob.serialize_to_jql) := by
  refine ⟨rfl, ?_, ?_, ?_, ?_⟩
  · rw [statement_clone_id]
  · intro c
    rw [clause_clone_id]
  · intro v
    rw [value_clone_id]
  · intro ob
    rw [orderby_clone_id]

theorem search_all_loop_spec {α : Type} (server : Nat → Nat → List α) (j : Nat)
    (hfull : ∀ i, i < j → 100 ≤ (search_page server i).length)
    (hshort : (search_page server j).length < 100) :
    ∀ (fuel i : Nat) (acc : List α), i ≤ j → j - i < fuel →
      search_all_loop server fuel (search_offset server i) 100 acc
        = some (acc ++ ((List.range' i (j + 1 - i)).map (search_page server)).flatten) := by
  intro fuel
  induction fuel with
  | zero =>
    intro i acc hij hf
    omega
  | succ f ih =>
    intro i acc hij hf
    by_cases hstop : i = j
    · subst hstop
      have hshort2 : (server (search_offset server i) 100).length < 100 := hshort
      simp only [search_all_loop]
      rw [if_pos hshort2]
      have hr : i + 1 - i = 1 := by omega
      rw [hr]
      simp [search_page]
    · have hlt : i < j := Nat.lt_of_le_of_ne hij hstop
      have hfull_i : 100 ≤ (server (search_offset server i) 100).length := hfull i hlt
      simp only [search_all_loop]
      rw [if_neg (by omega)]
      have hoff : search_offset server i + (server (search_offset server i) 100).length
          = search_offset server (i + 1) := rfl
      rw [hoff, ih (i + 1) (acc ++ server (search_offset server i) 100) (by omega) (by omega)]
      have hrange : List.range' i (j + 1 - i) = i :: List.range' (i + 1) (j - i) := by
        have h1 : j + 1 - i = (j - i) + 1 := by omega
        rw [h1, List.range'_succ]
      rw [hrange]
      have h2 : j + 1 - (i + 1) = j - i := by omega
      rw [h2]
      simp [search_page, List.append_assoc]

/-- C9: whenever the pages the endpoint returns contain a first short page
(the j-th, counting from 0, with every earlier page at least the requested
size 100), search_all requests offsets starting at 0 and advancing by the
number of records each page returned, so the offsets strictly increase;
it stops exactly after that first short page and returns the concatenation of
all fetched pages in fetch order. -/
theorem search_all_pagination {α : Type} (server : Nat → Nat → List α) (j : Nat)
    (hfull : ∀ i, i < j → 100 ≤ (search_page server i).length)
    (hshort : (search_page server j).length < 100) (fuel : Nat) (hfuel : j < fuel) :
    search_all server fuel = some (((List.range (j + 1)).map (search_page server)).flatten) ∧
    search_offset server 0 = 0 ∧
    (∀ i, i < j → search_offset server i < search_offset server (i + 1)) := by
  refine ⟨?_, rfl, ?_⟩
  · have h := search_all_loop_spec server j hfull hshort fuel 0 [] (by omega) (by omega)
    have h0 : search_offset server 0 = 0 := rfl
    rw [h0] at h
    rw [search_all, h]
    rw [List.range_eq_range']
    simp
  · intro i hi
    have hlen : 100 ≤ (server (search_offset server i) 100).length := hfull i hi
    have hstep : search_offset server (i + 1)
        = search_offset server i + (server (search_offset server i) 100).length := rfl
    omega

theorem search_all_pagination_witness :
    search_all demoServer 2 = some (((List.range 2).map (search_page demoServer)).flatten) :=
  (search_all_pagination demoServer 1
    (by
      intro i hi
      have h0 : i = 0 := by omega
      subst h0
      decide)
    (by decide) 2 (by omega)).1

/-- C10: get_string_in_json returns none on the empty path; on a nonempty
path it walks all keys but the last, keeping the current value unchanged at a
non-object value or a missing key, and returns some s exactly when the value
reached is an object whose entry at the last key is the JSON string s, and
none in every other case. -/
theorem get_string_in_json_spec (value : JSONValue) (path : List Str) :
    (path = [] → get_string_in_json value path = none) ∧
    (path ≠ [] → ∀ s,
      (get_string_in_json value path = some s ↔
        ∃ m, walkPath value path.dropLast = JSONValue.Object m ∧
          getKey m (path.getLastD "") = some (JSONValue.String s))) ∧
    (∀ w k ks, (∀ m, w ≠ JSONValue.Object m) → walkPath w (k :: ks) = walkPath w ks) ∧
    (∀ m k ks, getKey m k = none →
      walkPath (JSONValue.Object m) (k :: ks) = walkPath (JSONValue.Object m) ks) ∧
    (∀ m k ks inner, getKey m k = some inner →
      walkPath (JSONValue.Object m) (k :: ks) = walkPath inner ks) := by
  refine ⟨?_, ?_, ?_, ?_, ?_⟩
  · rintro rfl
    rfl
  · intro hne s
    unfold get_string_in_json
    rw [if_neg (by simp [hne])]
    constructor
    · intro h
      split at h
      · split at h
        · rename_i v m hm x s2 hk
          obtain rfl : s2 = s := Option.some_inj.mp h
          exact ⟨m, hm, hk⟩
        · exact absurd h (by simp)
      · exact absurd h (by simp)
    · rintro ⟨m, hm, hk⟩
      rw [hm]
      simp only [List.getLastD_eq_getLast?] at hk
      simp [hk]
  · intro w k ks hno
    cases w with
    | Object m => exact absurd rfl (hno m)
    | Null => rfl
    | Bool b => rfl
    | Number n => rfl
    | String s => rfl
    | Array l => rfl
  · intro m k ks h
    simp [walkPath, h]
  · intro m k ks inner h
    simp [walkPath, h]

theorem get_string_in_json_spec_witness :
    get_string_in_json demoJson ["statusCategory", "name"] = some "Done" :=
  ((get_string_in_json_spec demoJson ["statusCategory", "name"]).2.1 (by simp) "Done").mpr
    ⟨[("name", JSONValue.String "Done")], rfl, rfl⟩

end JiraClient
